import Mathlib

/-!
Verification model of the AI-judge backend: the JSON response parsing and
schema validation in llmService.ts, the persistence operations in
databaseService.ts, the case routes (judgment generation, argument
submission, final verdict), and the Redis cache wrapper.
-/

namespace AiJudge

/-- JSON value model used by the response parser and the ajv schema validators. -/
inductive JVal where
  | jnull : JVal
  | jbool : Bool → JVal
  | jnum : Int → JVal
  | jstr : String → JVal
  | jarr : List JVal → JVal
  | jobj : List (String × JVal) → JVal

/-- First-match field lookup in a JSON object, as JavaScript property access. -/
def lookupField : List (String × JVal) → String → Option JVal
  | [], _ => none
  | (k, v) :: rest, key => if k = key then some v else lookupField rest key

/-- Property access on a JSON value: defined only on objects. -/
def JVal.getField : JVal → String → Option JVal
  | JVal.jobj fs, key => lookupField fs key
  | _, _ => none

/-- An object check, as ajv type object. -/
def isObj : JVal → Bool
  | JVal.jobj _ => true
  | _ => false

/-- A required string property per the ajv schemas. -/
def isReqString (v : Option JVal) : Bool :=
  match v with
  | some (JVal.jstr _) => true
  | _ => false

/-- An optional nullable string property per the ajv schemas. -/
def isOptString (v : Option JVal) : Bool :=
  match v with
  | none => true
  | some JVal.jnull => true
  | some (JVal.jstr _) => true
  | _ => false

/-- An optional nullable boolean property per the ajv schemas. -/
def isOptBool (v : Option JVal) : Bool :=
  match v with
  | none => true
  | some JVal.jnull => true
  | some (JVal.jbool _) => true
  | _ => false

/-- An optional nullable array-of-strings property per the ajv schemas. -/
def isOptStrArray (v : Option JVal) : Bool :=
  match v with
  | none => true
  | some JVal.jnull => true
  | some (JVal.jarr xs) =>
      xs.all fun x =>
        match x with
        | JVal.jstr _ => true
        | _ => false
  | _ => false

/-- An optional nullable number with minimum 0 and maximum 100, per the
confidence property of both ajv schemas in llmService.ts. -/
def isOptConfidence (v : Option JVal) : Bool :=
  match v with
  | none => true
  | some JVal.jnull => true
  | some (JVal.jnum n) => decide (0 ≤ n ∧ n ≤ 100)
  | _ => false

/-- The judgment schema of llmService.ts: verdict and reasoning required
strings, legalBasis an optional string array, confidence an optional number
in 0..100, additionalProperties allowed. -/
def validateJudgment (j : JVal) : Bool :=
  isObj j &&
  isReqString (j.getField "verdict") &&
  isReqString (j.getField "reasoning") &&
  isOptStrArray (j.getField "legalBasis") &&
  isOptConfidence (j.getField "confidence")

/-- The argument schema of llmService.ts: response a required string, all
other properties optional, additionalProperties allowed. -/
def validateArgument (j : JVal) : Bool :=
  isObj j &&
  isReqString (j.getField "response") &&
  isOptString (j.getField "strengthens") &&
  isOptString (j.getField "weakens") &&
  isOptString (j.getField "uncertaintyRemains") &&
  isOptBool (j.getField "reconsidered") &&
  isOptString (j.getField "updatedReasoning") &&
  isOptString (j.getField "provisionalNote") &&
  isOptConfidence (j.getField "confidence")

/-- Read a string property, defaulting to the empty string (only used where
validation guarantees the property is a string). -/
def asString (v : Option JVal) : String :=
  match v with
  | some (JVal.jstr s) => s
  | _ => ""

/-- Read an optional string property; null and undefined both become none. -/
def asOptString (v : Option JVal) : Option String :=
  match v with
  | some (JVal.jstr s) => some s
  | _ => none

/-- JavaScript expression parsed.legalBasis or-else the empty array: an array
value (even empty) is truthy and kept; null and undefined give the default. -/
def jsOrList (v : Option JVal) : List String :=
  match v with
  | some (JVal.jarr xs) =>
      xs.filterMap fun x =>
        match x with
        | JVal.jstr s => some s
        | _ => none
  | _ => []

/-- JavaScript expression parsed.confidence or-else 50: the number 0 is falsy,
so 0, null and undefined all give 50. -/
def jsOrFifty (v : Option JVal) : Int :=
  match v with
  | some (JVal.jnum n) => if n = 0 then 50 else n
  | _ => 50

/-- JavaScript expression parsed.reconsidered or-else false. -/
def jsOrFalse (v : Option JVal) : Bool :=
  match v with
  | some (JVal.jbool b) => b
  | _ => false

/-- The Judgment object produced by parseJudgmentResponse (timestamp omitted). -/
structure Judgment where
  verdict : String
  reasoning : String
  legalBasis : List String
  confidence : Int
deriving DecidableEq, Repr

/-- The ArgumentResponse object of llmService.ts. -/
structure ArgResp where
  response : String
  strengthens : Option String
  weakens : Option String
  uncertaintyRemains : Option String
  reconsidered : Bool
  updatedReasoning : Option String
  provisionalNote : Option String
  confidence : Int
deriving DecidableEq, Repr

/-- parseJudgmentResponse after JSON extraction and JSON.parse: validate
against the judgment schema, then build the Judgment with the default
substitutions of llmService.ts lines 738-744. -/
def parseJudgmentFromJson (j : JVal) : Option Judgment :=
  if validateJudgment j then
    some ⟨asString (j.getField "verdict"),
          asString (j.getField "reasoning"),
          jsOrList (j.getField "legalBasis"),
          jsOrFifty (j.getField "confidence")⟩
  else none

/-- parseArgumentResponse after JSON extraction and JSON.parse: validate
against the argument schema, then build the returned object exactly as
llmService.ts lines 773-778 does: only response, reconsidered,
updatedReasoning and confidence are populated; strengthens, weakens,
uncertaintyRemains and provisionalNote are left undefined. -/
def parseArgumentFromJson (j : JVal) : Option ArgResp :=
  if validateArgument j then
    some ⟨asString (j.getField "response"),
          none, none, none,
          jsOrFalse (j.getField "reconsidered"),
          asOptString (j.getField "updatedReasoning"),
          none,
          jsOrFifty (j.getField "confidence")⟩
  else none

/-- The opening brace character. -/
def lbrace : Char := Char.ofNat 123

/-- The closing brace character. -/
def rbrace : Char := Char.ofNat 125

/-- Index of the first opening brace in a character list. -/
def firstBrace : List Char → Option Nat
  | [] => none
  | c :: cs => if c = lbrace then some 0 else (firstBrace cs).map (· + 1)

/-- Index of the last closing brace in a character list. -/
def lastClose : List Char → Option Nat
  | [] => none
  | c :: cs =>
    match lastClose cs with
    | some j => some (j + 1)
    | none => if c = rbrace then some 0 else none

/-- The span matched by the greedy regex of parseJudgmentResponse and
parseArgumentResponse: from the first opening brace through the last closing
brace of the whole response, when the latter lies after the former. -/
def extractJsonSpan (s : List Char) : Option (List Char) :=
  match firstBrace s, lastClose s with
  | some i, some j => if i < j then some ((s.drop i).take (j - i + 1)) else none
  | _, _ => none

/-- Helper for firstTopLevelSpan: scan forward tracking brace depth, emitting
the accumulated span when depth returns to zero. -/
def topSpanAux : List Char → Nat → List Char → Option (List Char)
  | [], _, _ => none
  | c :: rest, d, acc =>
    if c = lbrace then topSpanAux rest (d + 1) (c :: acc)
    else if c = rbrace then
      if d ≤ 1 then some (c :: acc).reverse else topSpanAux rest (d - 1) (c :: acc)
    else topSpanAux rest d (c :: acc)

/-- Modelled from the spec: the extraction the specification describes, namely
the first top-level brace-delimited span of the response, found by scanning to
the first opening brace and cutting at the matching closing brace. Written for
comparison with extractJsonSpan, which embeds what the code actually does. -/
def firstTopLevelSpan : List Char → Option (List Char)
  | [] => none
  | c :: rest => if c = lbrace then topSpanAux rest 1 [c] else firstTopLevelSpan rest

/-- Case status as stored in the cases table. -/
inductive Status where
  | pending : Status
  | judged : Status
  | inArgument : Status
deriving DecidableEq, Repr

/-- A row of the judgments table (id and created timestamp omitted). -/
structure JudgmentRow where
  verdict : String
  reasoning : String
  legalBasis : List String
  confidence : Int
  version : Nat
deriving DecidableEq, Repr

/-- A row of the arguments table (id and created timestamp omitted; side true
means side A). -/
structure ArgumentRow where
  side : Bool
  argumentText : String
  response : String
  strengthens : Option String
  weakens : Option String
  uncertaintyRemains : Option String
  provisionalNote : Option String
  reconsidered : Bool
  sequenceNumber : Nat
deriving DecidableEq, Repr

/-- The persisted and cached state of one case: its status row, its judgment
rows and argument rows in insertion order, and the contents of its judgment
cache key (none when absent). -/
structure CaseState where
  status : Status
  judgments : List JudgmentRow
  args : List ArgumentRow
  cache : Option Judgment
deriving DecidableEq, Repr

/-- databaseService.saveJudgment: inserts a judgment row with the version the
caller supplies and unconditionally updates the case status to judged. -/
def saveJudgment (st : CaseState) (verdict reasoning : String) (legalBasis : List String)
    (confidence : Int) (version : Nat) : CaseState :=
  { st with
    judgments := st.judgments ++ [⟨verdict, reasoning, legalBasis, confidence, version⟩]
    status := Status.judged }

/-- databaseService.saveArgument: inserts an argument row and unconditionally
updates the case status to in_argument. -/
def saveArgument (st : CaseState) (side : Bool) (argumentText response : String)
    (reconsidered : Bool) (sequenceNumber : Nat)
    (strengthens weakens uncertainty provisionalNote : Option String) : CaseState :=
  { st with
    args := st.args ++
      [⟨side, argumentText, response, strengthens, weakens, uncertainty,
        provisionalNote, reconsidered, sequenceNumber⟩]
    status := Status.inArgument }

/-- The SQL query ORDER BY version DESC LIMIT 1: a row of maximal version,
ties resolved to the earlier row in scan order. -/
def maxVersionRow : List JudgmentRow → Option JudgmentRow
  | [] => none
  | j :: js =>
    match maxVersionRow js with
    | none => some j
    | some k => if j.version < k.version then some k else some j

/-- databaseService.getLatestJudgment. -/
def getLatestJudgment (st : CaseState) : Option JudgmentRow :=
  maxVersionRow st.judgments

/-- Stable insertion for ORDER BY version ASC: a new row goes after every row
whose version does not exceed its own. -/
def insertByVersion (j : JudgmentRow) : List JudgmentRow → List JudgmentRow
  | [] => [j]
  | k :: ks => if j.version < k.version then j :: k :: ks else k :: insertByVersion j ks

/-- Stable sort by ascending version, modelling ORDER BY version ASC. -/
def sortByVersion (l : List JudgmentRow) : List JudgmentRow :=
  l.foldl (fun acc j => insertByVersion j acc) []

/-- databaseService.getJudgments: all judgment rows ordered by version
ascending. -/
def getJudgments (st : CaseState) : List JudgmentRow :=
  sortByVersion st.judgments

/-- databaseService.getArgumentCount: COUNT of argument rows for the case. -/
def getArgumentCount (st : CaseState) : Nat :=
  st.args.length

/-- Outcome of the three cache calls used inside one request: true means the
backing cache is reachable and the call succeeds, false means the call is
dropped (disconnected client or a caught backend error). -/
structure CacheBeh where
  getOk : Bool
  setOk : Bool
  delOk : Bool
deriving DecidableEq, Repr

/-- cacheService.get on the case judgment key: the cached value on success,
null when disconnected or the backend errors. -/
def cacheGet (st : CaseState) (cb : CacheBeh) : Option Judgment :=
  if cb.getOk then st.cache else none

/-- cacheService.set on the case judgment key: stores the value on success, a
silent no-op otherwise. -/
def cacheSet (st : CaseState) (cb : CacheBeh) (j : Judgment) : CaseState :=
  if cb.setOk then { st with cache := some j } else st

/-- cacheService.delete on the case judgment key: removes the entry on
success, a silent no-op otherwise. -/
def cacheDel (st : CaseState) (cb : CacheBeh) : CaseState :=
  if cb.delOk then { st with cache := none } else st

/-- The error classes the case routes surface: 400 validation errors, 404
not-found errors, and 500 responses from the catch blocks. -/
inductive ApiError where
  | validation : String → ApiError
  | notFound : String → ApiError
  | serverError : String → ApiError
deriving DecidableEq, Repr

/-- JavaScript truthiness of an optional string: undefined, null and the
empty string are falsy. -/
def jsTruthyStr : Option String → Bool
  | some s => s != ""
  | none => false

/-- Route POST /:caseId/judgment. The llm parameter is the outcome of
llmService.generateJudgment. On a cache hit the cached judgment is returned
with cached true; on a miss the generated judgment is saved with the default
version 1 (the route passes no version and never checks for an existing
judgment), cached, and returned with cached false. -/
def postJudgment (st : CaseState) (cb : CacheBeh) (llm : Except String Judgment) :
    CaseState × Except ApiError (Judgment × Bool) :=
  match cacheGet st cb with
  | some cached => (st, Except.ok (cached, true))
  | none =>
    match llm with
    | Except.error _ => (st, Except.error (ApiError.serverError "Failed to generate judgment"))
    | Except.ok judgment =>
      let st1 := saveJudgment st judgment.verdict judgment.reasoning judgment.legalBasis
        judgment.confidence 1
      (cacheSet st1 cb judgment, Except.ok (judgment, false))

/-- Route POST /:caseId/arguments. Checks the argument cap first, then the
latest judgment, then processes the argument (llm is the outcome of
llmService.processArgument), saves the argument row with sequence number
count + 1, and, only when the response is flagged reconsidered AND carries a
truthy updatedReasoning, saves a new judgment version latest.version + 1 and
deletes the cache key. Returns the response together with
remainingArguments = 5 - (count + 1). -/
def postArgument (st : CaseState) (cb : CacheBeh) (side : Bool) (text : String)
    (llm : Except String ArgResp) : CaseState × Except ApiError (ArgResp × Nat) :=
  let count := getArgumentCount st
  if 5 ≤ count then
    (st, Except.error (ApiError.validation "Maximum number of arguments (5) reached"))
  else
    match getLatestJudgment st with
    | none => (st, Except.error (ApiError.notFound "Case or judgment not found"))
    | some latest =>
      match llm with
      | Except.error _ => (st, Except.error (ApiError.serverError "Failed to process argument"))
      | Except.ok ar =>
        let st1 := saveArgument st side text ar.response ar.reconsidered (count + 1)
          ar.strengthens ar.weakens ar.uncertaintyRemains ar.provisionalNote
        let st2 :=
          if ar.reconsidered && jsTruthyStr ar.updatedReasoning then
            cacheDel
              (saveJudgment st1 latest.verdict (ar.updatedReasoning.getD "")
                latest.legalBasis ar.confidence (latest.version + 1)) cb
          else st1
        (st2, Except.ok (ar, 5 - (count + 1)))

/-- Route POST /:caseId/final-verdict. Requires at least one judgment (else a
400 response), generates the final verdict (llm is the outcome of
llmService.generateFinalVerdict), saves it with version equal to the number
of existing judgments plus one, and deletes the cache key. -/
def postFinalVerdict (st : CaseState) (cb : CacheBeh) (llm : Except String Judgment) :
    CaseState × Except ApiError Judgment :=
  let js := getJudgments st
  if js.length = 0 then
    (st, Except.error (ApiError.validation "No initial judgment found"))
  else
    match llm with
    | Except.error _ =>
        (st, Except.error (ApiError.serverError "Failed to generate final verdict"))
    | Except.ok fv =>
      let st1 := saveJudgment st fv.verdict fv.reasoning fv.legalBasis fv.confidence
        (js.length + 1)
      (cacheDel st1 cb, Except.ok fv)

/-- One API request against a case, with its cache behaviour and the outcome
of its generation-backend call. -/
inductive Op where
  | genJudgment : CacheBeh → Except String Judgment → Op
  | submitArg : CacheBeh → Bool → String → Except String ArgResp → Op
  | finalVerdict : CacheBeh → Except String Judgment → Op

/-- The state transition of one request. -/
def step (st : CaseState) : Op → CaseState
  | Op.genJudgment cb llm => (postJudgment st cb llm).1
  | Op.submitArg cb side text llm => (postArgument st cb side text llm).1
  | Op.finalVerdict cb llm => (postFinalVerdict st cb llm).1

/-- The state of a case right after databaseService.createCase: status
pending, no judgments, no arguments, nothing cached. -/
def initState : CaseState := ⟨Status.pending, [], [], none⟩

/-- Run a sequence of requests against a fresh case. -/
def run (ops : List Op) : CaseState :=
  ops.foldl step initState

/-- llmService.generateJudgment retry loop: maxRetries = 2; a first failure is
retried once, and exhaustion surfaces the last underlying error message. -/
def retryGenerateJudgment (attempt : Nat → Except String Judgment) : Except String Judgment :=
  match attempt 1 with
  | Except.ok j => Except.ok j
  | Except.error _ =>
    match attempt 2 with
    | Except.ok j => Except.ok j
    | Except.error e2 =>
        Except.error ("Failed to generate judgment after 2 attempts: " ++ e2)

/-- llmService.generateFinalVerdict retry loop: identical shape to the
judgment loop with its own failure message. -/
def retryFinalVerdict (attempt : Nat → Except String Judgment) : Except String Judgment :=
  match attempt 1 with
  | Except.ok j => Except.ok j
  | Except.error _ =>
    match attempt 2 with
    | Except.ok j => Except.ok j
    | Except.error e2 =>
        Except.error ("Failed to generate final verdict after 2 attempts: " ++ e2)

/-- llmService.processArgument: a single try block with no retry loop; any
failure is rethrown as a constant message that drops the underlying error. -/
def processArgumentOnce (attempt : Nat → Except String ArgResp) : Except String ArgResp :=
  match attempt 1 with
  | Except.ok a => Except.ok a
  | Except.error _ => Except.error "Failed to process argument"

/-- The standalone cache service of cacheService.ts: a connection flag and the
backing store contents. -/
structure CacheSvc where
  isConnected : Bool
  store : List (String × String)
deriving DecidableEq, Repr

/-- Behaviour of one backing-cache call: it either completes or raises (the
raise is always caught by the service). -/
inductive CacheCall where
  | ok : CacheCall
  | fails : CacheCall
deriving DecidableEq, Repr

/-- First-match lookup in the backing store. -/
def lookupStr : List (String × String) → String → Option String
  | [], _ => none
  | (k, v) :: rest, key => if k = key then some v else lookupStr rest key

/-- CacheService.get: null when disconnected, null when the backing call
raises (error caught and logged), otherwise the stored value. -/
def svcGet (c : CacheSvc) (beh : CacheCall) (key : String) : Option String :=
  if c.isConnected then
    match beh with
    | CacheCall.ok => lookupStr c.store key
    | CacheCall.fails => none
  else none

/-- CacheService.set: a no-op when disconnected or when the backing call
raises, otherwise overwrites the key. -/
def svcSet (c : CacheSvc) (beh : CacheCall) (key value : String) : CacheSvc :=
  if c.isConnected then
    match beh with
    | CacheCall.ok => { c with store := (key, value) :: c.store.filter (fun p => p.1 != key) }
    | CacheCall.fails => c
  else c

/-- CacheService.delete: a no-op when disconnected or when the backing call
raises, otherwise removes the key. -/
def svcDelete (c : CacheSvc) (beh : CacheCall) (key : String) : CacheSvc :=
  if c.isConnected then
    match beh with
    | CacheCall.ok => { c with store := c.store.filter (fun p => p.1 != key) }
    | CacheCall.fails => c
  else c

/-- The list a + 1, a + 2, ..., a + k of k consecutive versions. -/
def seqFrom : Nat → Nat → List Nat
  | _, 0 => []
  | a, Nat.succ k => (a + 1) :: seqFrom (a + 1) k

theorem seqFrom_concat (k a : Nat) : seqFrom a (k + 1) = seqFrom a k ++ [a + k + 1] := by
  induction k generalizing a with
  | zero => rfl
  | succ k ih =>
      have harith : a + 1 + k + 1 = a + (k + 1) + 1 := by omega
      show (a + 1) :: seqFrom (a + 1) (k + 1) = ((a + 1) :: seqFrom (a + 1) k) ++ [a + (k + 1) + 1]
      rw [ih (a + 1), harith]
      simp

theorem mem_seqFrom {m a k : Nat} (h : m ∈ seqFrom a k) : m ≤ a + k := by
  induction k generalizing a with
  | zero => simp [seqFrom] at h
  | succ k ih =>
      simp only [seqFrom, List.mem_cons] at h
      rcases h with h | h
      · omega
      · have := ih h
        omega

theorem maxVersionRow_of_seq (l : List JudgmentRow) (a : Nat)
    (h : l.map JudgmentRow.version = seqFrom a l.length) :
    l = [] ∨ ∃ j, maxVersionRow l = some j ∧ j.version = a + l.length := by
  induction l generalizing a with
  | nil => exact Or.inl rfl
  | cons x xs ih =>
      right
      simp only [List.map_cons, List.length_cons, seqFrom, List.cons.injEq] at h
      obtain ⟨hx, hxs⟩ := h
      cases xs with
      | nil =>
          refine ⟨x, rfl, ?_⟩
          simpa using hx
      | cons y ys =>
          rcases ih (a + 1) hxs with h1 | ⟨k, hk, hkv⟩
          · simp at h1
          · have hxlt : x.version < k.version := by
              rw [hx, hkv]
              simp
            refine ⟨k, ?_, ?_⟩
            · have hstep : maxVersionRow (x :: y :: ys) =
                  match maxVersionRow (y :: ys) with
                  | none => some x
                  | some m => if x.version < m.version then some m else some x := rfl
              rw [hstep, hk]
              simp [hxlt]
            · rw [hkv]
              simp only [List.length_cons]
              omega

theorem insertByVersion_append (j : JudgmentRow) (acc : List JudgmentRow)
    (h : ∀ k ∈ acc, k.version ≤ j.version) : insertByVersion j acc = acc ++ [j] := by
  induction acc with
  | nil => rfl
  | cons x xs ih =>
      have hx : ¬ j.version < x.version :=
        Nat.not_lt.mpr (h x (List.mem_cons_self x xs))
      simp [insertByVersion, hx, ih (fun k hk => h k (List.mem_cons_of_mem x hk))]

theorem foldl_insert_of_seq (l : List JudgmentRow) (a : Nat) (acc : List JudgmentRow)
    (h : l.map JudgmentRow.version = seqFrom a l.length)
    (hacc : ∀ k ∈ acc, k.version ≤ a) :
    l.foldl (fun acc2 j => insertByVersion j acc2) acc = acc ++ l := by
  induction l generalizing a acc with
  | nil => simp
  | cons x xs ih =>
      simp only [List.map_cons, List.length_cons, seqFrom, List.cons.injEq] at h
      obtain ⟨hx, hxs⟩ := h
      have hins : insertByVersion x acc = acc ++ [x] :=
        insertByVersion_append x acc (fun k hk => by
          rw [hx]
          exact Nat.le_trans (hacc k hk) (Nat.le_succ a))
      have hacc2 : ∀ k ∈ acc ++ [x], k.version ≤ a + 1 := by
        intro k hk
        rcases List.mem_append.mp hk with hk1 | hk2
        · exact Nat.le_trans (hacc k hk1) (Nat.le_succ a)
        · have : k = x := by simpa using hk2
          rw [this, hx]
      calc (x :: xs).foldl (fun acc2 j => insertByVersion j acc2) acc
      _ = xs.foldl (fun acc2 j => insertByVersion j acc2) (insertByVersion x acc) := rfl
      _ = (acc ++ [x]) ++ xs := by rw [hins]; exact ih (a + 1) (acc ++ [x]) hxs hacc2
      _ = acc ++ x :: xs := by simp

theorem sortByVersion_of_seq (l : List JudgmentRow)
    (h : l.map JudgmentRow.version = seqFrom 0 l.length) : sortByVersion l = l := by
  have := foldl_insert_of_seq l 0 [] h (fun k hk => absurd hk (List.not_mem_nil k))
  simpa [sortByVersion] using this

/-- The judgment-version invariant: the versions of the stored judgment rows,
in insertion order, are exactly 1, 2, ..., n. -/
def versionsOk (st : CaseState) : Prop :=
  st.judgments.map JudgmentRow.version = seqFrom 0 st.judgments.length

theorem judgments_cacheSet (st : CaseState) (cb : CacheBeh) (j : Judgment) :
    (cacheSet st cb j).judgments = st.judgments := by
  unfold cacheSet
  split <;> rfl

theorem judgments_cacheDel (st : CaseState) (cb : CacheBeh) :
    (cacheDel st cb).judgments = st.judgments := by
  unfold cacheDel
  split <;> rfl

theorem args_cacheSet (st : CaseState) (cb : CacheBeh) (j : Judgment) :
    (cacheSet st cb j).args = st.args := by
  unfold cacheSet
  split <;> rfl

theorem args_cacheDel (st : CaseState) (cb : CacheBeh) :
    (cacheDel st cb).args = st.args := by
  unfold cacheDel
  split <;> rfl

/-- Side condition on one request: a judgment-generation request that reaches
its write path (cache miss and successful generation) must find the case
without any judgment. The code does not enforce this; traces violating it
duplicate version 1. -/
def okOp (st : CaseState) : Op → Prop
  | Op.genJudgment cb llm =>
      cacheGet st cb = none → (∃ j, llm = Except.ok j) → st.judgments = []
  | Op.submitArg _ _ _ _ => True
  | Op.finalVerdict _ _ => True

/-- A trace in which every judgment-generation write happens on a case with
no judgments yet. -/
def safeTrace : CaseState → List Op → Prop
  | _, [] => True
  | st, op :: ops => okOp st op ∧ safeTrace (step st op) ops

theorem step_versionsOk (st : CaseState) (op : Op) (hv : versionsOk st)
    (hok : okOp st op) : versionsOk (step st op) := by
  cases op with
  | genJudgment cb llm =>
      simp only [step, postJudgment]
      cases hc : cacheGet st cb with
      | some cached => exact hv
      | none =>
          cases llm with
          | error e => exact hv
          | ok j =>
              have hemp : st.judgments = [] := hok hc ⟨j, rfl⟩
              simp only [versionsOk, judgments_cacheSet, saveJudgment, hemp]
              rfl
  | submitArg cb side text llm =>
      simp only [step, postArgument]
      by_cases h5 : 5 ≤ getArgumentCount st
      · simp only [if_pos h5]
        exact hv
      · simp only [if_neg h5]
        cases hl : getLatestJudgment st with
        | none => exact hv
        | some latest =>
            cases llm with
            | error e => exact hv
            | ok ar =>
                by_cases hrec : ar.reconsidered && jsTruthyStr ar.updatedReasoning
                · simp only [if_pos hrec]
                  have hlv : latest.version = st.judgments.length := by
                    rcases maxVersionRow_of_seq st.judgments 0 hv with h0 | ⟨j, hj, hjv⟩
                    · rw [getLatestJudgment, h0] at hl
                      simp [maxVersionRow] at hl
                    · rw [getLatestJudgment, hj] at hl
                      cases hl
                      omega
                  simp only [versionsOk, judgments_cacheDel, saveJudgment, saveArgument]
                  simp only [List.map_append, List.length_append, List.map_cons,
                    List.map_nil, List.length_cons, List.length_nil]
                  rw [hlv]
                  have := seqFrom_concat st.judgments.length 0
                  simp only [Nat.zero_add] at this
                  rw [versionsOk] at hv
                  simp only [Nat.zero_add]
                  rw [hv]
                  exact this.symm
                · simp only [if_neg hrec]
                  exact hv
  | finalVerdict cb llm =>
      simp only [step, postFinalVerdict]
      by_cases hz : (getJudgments st).length = 0
      · simp only [if_pos hz]
        exact hv
      · simp only [if_neg hz]
        cases llm with
        | error e => exact hv
        | ok fv =>
            have hsort : getJudgments st = st.judgments := sortByVersion_of_seq st.judgments hv
            simp only [versionsOk, judgments_cacheDel, saveJudgment, hsort]
            simp only [List.map_append, List.length_append, List.map_cons,
              List.map_nil, List.length_cons, List.length_nil]
            have := seqFrom_concat st.judgments.length 0
            simp only [Nat.zero_add] at this
            rw [versionsOk] at hv
            simp only [Nat.zero_add]
            rw [hv]
            exact this.symm

theorem foldl_versionsOk (ops : List Op) (st : CaseState) (hv : versionsOk st)
    (hs : safeTrace st ops) : versionsOk (ops.foldl step st) := by
  induction ops generalizing st with
  | nil => exact hv
  | cons op ops ih =>
      obtain ⟨h1, h2⟩ := hs
      exact ih (step st op) (step_versionsOk st op hv h1) h2

theorem step_args_le (st : CaseState) (op : Op) (h : st.args.length ≤ 5) :
    (step st op).args.length ≤ 5 := by
  cases op with
  | genJudgment cb llm =>
      simp only [step, postJudgment]
      cases hc : cacheGet st cb with
      | some cached => exact h
      | none =>
          cases llm with
          | error e => exact h
          | ok j => simpa [args_cacheSet, saveJudgment] using h
  | submitArg cb side text llm =>
      simp only [step, postArgument]
      by_cases h5 : 5 ≤ getArgumentCount st
      · simp only [if_pos h5]
        exact h
      · simp only [if_neg h5]
        cases hl : getLatestJudgment st with
        | none => exact h
        | some latest =>
            cases llm with
            | error e => exact h
            | ok ar =>
                have hlt : st.args.length < 5 := Nat.lt_of_not_le h5
                by_cases hrec : (ar.reconsidered && jsTruthyStr ar.updatedReasoning) = true
                · simp only [if_pos hrec, args_cacheDel]
                  simp only [saveJudgment, saveArgument, List.length_append,
                    List.length_cons, List.length_nil]
                  omega
                · simp only [if_neg hrec]
                  simp only [saveArgument, List.length_append, List.length_cons,
                    List.length_nil]
                  omega
  | finalVerdict cb llm =>
      simp only [step, postFinalVerdict]
      by_cases hz : (getJudgments st).length = 0
      · simp only [if_pos hz]
        exact h
      · simp only [if_neg hz]
        cases llm with
        | error e => exact h
        | ok fv => simpa [args_cacheDel, saveJudgment] using h

theorem foldl_args_le (ops : List Op) (st : CaseState) (h : st.args.length ≤ 5) :
    (ops.foldl step st).args.length ≤ 5 := by
  induction ops generalizing st with
  | nil => exact h
  | cons op ops ih => exact ih (step st op) (step_args_le st op h)

/-- Cache behaviour in which every cache call succeeds. -/
def cbAllOk : CacheBeh := ⟨true, true, true⟩

/-- Cache behaviour of an unreachable cache: every call is a swallowed no-op. -/
def cbDown : CacheBeh := ⟨false, false, false⟩

/-- Cache behaviour in which only the delete call fails (error caught and
logged by cacheService.delete). -/
def cbDelFail : CacheBeh := ⟨true, true, false⟩

/-- A concrete tentative judgment as produced by the generation backend. -/
def exJudgment1 : Judgment := ⟨"v1", "r1", ["b1"], 55⟩

/-- A second concrete judgment with different content. -/
def exJudgment2 : Judgment := ⟨"v2", "r2", [], 60⟩

/-- A concrete argument response without reconsideration. -/
def exArPlain : ArgResp := ⟨"resp", none, none, none, false, none, none, 70⟩

/-- A concrete argument response flagged reconsidered but carrying no
updatedReasoning, which the argument schema accepts. -/
def exArReconNoUpd : ArgResp := ⟨"resp", none, none, none, true, none, none, 70⟩

/-- A concrete argument response flagged reconsidered with an
updatedReasoning. -/
def exArRecon : ArgResp := ⟨"resp", none, none, none, true, some "u2", none, 80⟩

/-- Two judgment-generation requests against the same case while the cache is
unreachable (so both miss, exactly as after TTL expiry): both reach the write
path. -/
def ce1 : List Op :=
  [Op.genJudgment cbDown (Except.ok exJudgment1),
   Op.genJudgment cbDown (Except.ok exJudgment2)]

/-- Claim C1 counterexample: after two judgment-generation requests under a
cold cache, the case holds two judgment rows both with version 1, so the
stored versions are not the gapless strictly increasing sequence 1, 2 the
claim requires, and the second initial-generation write assigned version 1
rather than previous-maximum-plus-one. -/
theorem C1_counterexample :
    ((run ce1).judgments.map JudgmentRow.version = [1, 1]) ∧
    ((getJudgments (run ce1)).map JudgmentRow.version = [1, 1]) ∧
    (run ce1).judgments.map JudgmentRow.version ≠
      seqFrom 0 (run ce1).judgments.length := by
  refine ⟨by decide, by decide, by decide⟩

/-- Claim C1 (amended): provided every judgment-generation request that
reaches its write path finds the case without judgments (the code itself does
not enforce this), the reconsideration path assigns the latest version plus
one and the final-verdict path assigns the judgment count plus one, so the
stored versions are exactly 1, ..., n, getJudgments returns them in that
gapless strictly increasing order, and getLatestJudgment returns exactly a
judgment of maximal version. -/
theorem C1_versions_amended (ops : List Op) (h : safeTrace initState ops) :
    ((run ops).judgments.map JudgmentRow.version = seqFrom 0 (run ops).judgments.length) ∧
    getJudgments (run ops) = (run ops).judgments ∧
    ((run ops).judgments ≠ [] →
      ∃ j, getLatestJudgment (run ops) = some j ∧
        j.version = (run ops).judgments.length ∧
        ∀ k ∈ (run ops).judgments, k.version ≤ j.version) := by
  have hv : versionsOk (run ops) := foldl_versionsOk ops initState rfl h
  refine ⟨hv, sortByVersion_of_seq _ hv, ?_⟩
  intro hne
  rcases maxVersionRow_of_seq (run ops).judgments 0 hv with h0 | ⟨j, hj, hjv⟩
  · exact absurd h0 hne
  · refine ⟨j, hj, by omega, ?_⟩
    intro k hk
    have hkmem : k.version ∈ (run ops).judgments.map JudgmentRow.version :=
      List.mem_map_of_mem JudgmentRow.version hk
    rw [hv] at hkmem
    have := mem_seqFrom hkmem
    omega

/-- A protocol-conforming trace: one initial generation on a fresh case, one
reconsidered argument, one final verdict. -/
def ceSafe : List Op :=
  [Op.genJudgment cbDown (Except.ok exJudgment1),
   Op.submitArg cbAllOk true "a1" (Except.ok exArRecon),
   Op.finalVerdict cbAllOk (Except.ok exJudgment2)]

theorem C1_versions_amended_witness :
    ((run ceSafe).judgments.map JudgmentRow.version =
      seqFrom 0 (run ceSafe).judgments.length) ∧
    getJudgments (run ceSafe) = (run ceSafe).judgments := by
  have hsafe : safeTrace initState ceSafe := ⟨fun _ _ => rfl, trivial, trivial, trivial⟩
  exact ⟨(C1_versions_amended ceSafe hsafe).1, (C1_versions_amended ceSafe hsafe).2.1⟩

/-- Claim C3: in every reachable state the argument count is at most 5, and a
submission attempted when the count is already 5 fails with the validation
error, leaves the whole state (argument rows, judgment rows, cache, status)
unchanged, and the count still reads 5. -/
theorem C3_argument_cap :
    (∀ ops : List Op, getArgumentCount (run ops) ≤ 5) ∧
    (∀ st cb side text llm, getArgumentCount st = 5 →
      (postArgument st cb side text llm).1 = st ∧
      (postArgument st cb side text llm).2 =
        Except.error (ApiError.validation "Maximum number of arguments (5) reached") ∧
      getArgumentCount (postArgument st cb side text llm).1 = 5) := by
  constructor
  · intro ops
    exact foldl_args_le ops initState (by decide)
  · intro st cb side text llm h
    have h5 : 5 ≤ getArgumentCount st := Nat.le_of_eq h.symm
    refine ⟨?_, ?_, ?_⟩
    · simp [postArgument, h5]
    · simp [postArgument, h5]
    · simp [postArgument, h5, h]

/-- A concrete argument row. -/
def exRow : ArgumentRow := ⟨true, "a", "r", none, none, none, none, false, 1⟩

/-- A concrete case state already holding five argument rows. -/
def exSt5 : CaseState :=
  ⟨Status.inArgument, [⟨"v1", "r1", [], 55, 1⟩],
   [exRow, exRow, exRow, exRow, exRow], none⟩

theorem C3_argument_cap_witness :
    (postArgument exSt5 cbAllOk true "arg6" (Except.ok exArPlain)).1 = exSt5 ∧
    getArgumentCount (postArgument exSt5 cbAllOk true "arg6" (Except.ok exArPlain)).1 = 5 := by
  have h := C3_argument_cap.2 exSt5 cbAllOk true "arg6" (Except.ok exArPlain) rfl
  exact ⟨h.1, h.2.2⟩

theorem status_cacheDel (st : CaseState) (cb : CacheBeh) :
    (cacheDel st cb).status = st.status := by
  unfold cacheDel
  split <;> rfl

theorem cache_saveJudgment (st : CaseState) (v r : String) (lb : List String)
    (c : Int) (ver : Nat) : (saveJudgment st v r lb c ver).cache = st.cache := rfl

theorem cache_saveArgument (st : CaseState) (side : Bool) (t resp : String) (rc : Bool)
    (seq : Nat) (s w u p : Option String) :
    (saveArgument st side t resp rc seq s w u p).cache = st.cache := rfl

/-- One initial generation followed by an argument whose response is flagged
reconsidered without an updatedReasoning. -/
def ce2 : List Op :=
  [Op.genJudgment cbDown (Except.ok exJudgment1),
   Op.submitArg cbDown true "a1" (Except.ok exArReconNoUpd)]

/-- Claim C2 counterexample: an argument submission whose response carries
reconsidered true but no updatedReasoning commits an argument row flagged
reconsidered while the case still has exactly its one original judgment
version — a committed state with a reconsidered argument and no new judgment
version. -/
theorem C2_counterexample :
    ((run ce2).args.map ArgumentRow.reconsidered = [true]) ∧
    (run ce2).judgments.length = 1 := by
  refine ⟨by decide, by decide⟩

/-- Claim C2 (amended): a successful argument submission writes a new
judgment version exactly when the response is flagged reconsidered AND
carries a truthy (non-empty, non-null) updatedReasoning; when either part
fails, the argument row is committed (flagged as the response says) with the
judgment rows unchanged. The two writes are sequential, not transactional. -/
theorem C2_reconsidered_amended (st st2 : CaseState) (cb : CacheBeh) (side : Bool)
    (text : String) (ar : ArgResp) (r : ArgResp × Nat)
    (h : postArgument st cb side text (Except.ok ar) = (st2, Except.ok r)) :
    ((ar.reconsidered && jsTruthyStr ar.updatedReasoning) = true →
      st2.judgments.length = st.judgments.length + 1 ∧
      st2.args.length = st.args.length + 1 ∧
      st2.args.map ArgumentRow.reconsidered =
        st.args.map ArgumentRow.reconsidered ++ [ar.reconsidered]) ∧
    ((ar.reconsidered && jsTruthyStr ar.updatedReasoning) = false →
      st2.judgments = st.judgments ∧
      st2.args.length = st.args.length + 1 ∧
      st2.args.map ArgumentRow.reconsidered =
        st.args.map ArgumentRow.reconsidered ++ [ar.reconsidered]) := by
  by_cases h5 : 5 ≤ getArgumentCount st
  · simp [postArgument, h5] at h
  · cases hl : getLatestJudgment st with
    | none => simp [postArgument, h5, hl] at h
    | some latest =>
        cases hrecb : ar.reconsidered && jsTruthyStr ar.updatedReasoning with
        | true =>
            simp only [postArgument, if_neg h5, hl, hrecb, if_pos] at h
            obtain ⟨h1, h2⟩ := Prod.mk.injEq .. ▸ h
            constructor
            · intro _
              rw [← h1]
              refine ⟨?_, ?_, ?_⟩
              · simp [judgments_cacheDel, saveJudgment, saveArgument]
              · simp [args_cacheDel, saveJudgment, saveArgument]
              · simp [args_cacheDel, saveJudgment, saveArgument]
            · intro hcontra
              exact absurd hcontra (by simp)
        | false =>
            simp only [postArgument, if_neg h5, hl, hrecb, Bool.false_eq_true,
              if_false] at h
            obtain ⟨h1, h2⟩ := Prod.mk.injEq .. ▸ h
            constructor
            · intro hcontra
              exact absurd hcontra (by simp)
            · intro _
              rw [← h1]
              refine ⟨rfl, ?_, ?_⟩
              · simp [saveArgument]
              · simp [saveArgument]

/-- A concrete case state with one judgment and no arguments. -/
def exStJ : CaseState :=
  ⟨Status.judged, [⟨"v1", "r1", [], 55, 1⟩], [], some exJudgment1⟩

theorem C2_reconsidered_amended_witness :
    ((postArgument exStJ cbAllOk true "a1" (Except.ok exArRecon)).1.judgments.length =
      exStJ.judgments.length + 1) ∧
    ((postArgument exStJ cbAllOk true "a1" (Except.ok exArRecon)).1.args.length =
      exStJ.args.length + 1) := by
  have h := C2_reconsidered_amended exStJ
    (postArgument exStJ cbAllOk true "a1" (Except.ok exArRecon)).1 cbAllOk true "a1"
    exArRecon (exArRecon, 4) rfl
  exact ⟨(h.1 rfl).1, (h.1 rfl).2.1⟩

/-- One initial generation followed by a reconsidered argument with an
updatedReasoning, so the reconsideration path runs in full. -/
def ce4 : List Op :=
  [Op.genJudgment cbDown (Except.ok exJudgment1),
   Op.submitArg cbDown true "a1" (Except.ok exArRecon)]

/-- Claim C4 counterexample: after an argument submission that triggers a
reconsideration, the case holds one recorded argument yet its status is
judged, because saveJudgment unconditionally sets status judged and runs
after saveArgument — the status does not stay at in_argument as the claim
requires once an argument has been recorded. -/
theorem C4_counterexample :
    (run ce4).args.length = 1 ∧ (run ce4).status = Status.judged := by
  refine ⟨by decide, by decide⟩

/-- Claim C4 (amended): saveJudgment unconditionally sets the status to
judged and saveArgument unconditionally sets it to in_argument, so the status
reflects the last status-touching write rather than the furthest stage: it is
pending on a fresh case, in_argument after an argument submission without
reconsideration, and judged after any judgment write — including a
reconsideration triggered by an argument, which runs after the argument row
is saved. -/
theorem C4_status_amended :
    (∀ st v r lb c ver, (saveJudgment st v r lb c ver).status = Status.judged) ∧
    (∀ st side t resp rc seq s w u p,
      (saveArgument st side t resp rc seq s w u p).status = Status.inArgument) ∧
    initState.status = Status.pending ∧
    (∀ st st2 cb side text ar r,
      postArgument st cb side text (Except.ok ar) = (st2, Except.ok r) →
      ((ar.reconsidered && jsTruthyStr ar.updatedReasoning) = true →
        st2.status = Status.judged) ∧
      ((ar.reconsidered && jsTruthyStr ar.updatedReasoning) = false →
        st2.status = Status.inArgument)) := by
  refine ⟨fun st v r lb c ver => rfl, fun st side t resp rc seq s w u p => rfl, rfl, ?_⟩
  intro st st2 cb side text ar r h
  by_cases h5 : 5 ≤ getArgumentCount st
  · simp [postArgument, h5] at h
  · cases hl : getLatestJudgment st with
    | none => simp [postArgument, h5, hl] at h
    | some latest =>
        cases hrecb : ar.reconsidered && jsTruthyStr ar.updatedReasoning with
        | true =>
            simp only [postArgument, if_neg h5, hl, hrecb, if_pos] at h
            obtain ⟨h1, h2⟩ := Prod.mk.injEq .. ▸ h
            constructor
            · intro _
              rw [← h1]
              simp [status_cacheDel, saveJudgment]
            · intro hcontra
              exact absurd hcontra (by simp)
        | false =>
            simp only [postArgument, if_neg h5, hl, hrecb, Bool.false_eq_true,
              if_false] at h
            obtain ⟨h1, h2⟩ := Prod.mk.injEq .. ▸ h
            constructor
            · intro hcontra
              exact absurd hcontra (by simp)
            · intro _
              rw [← h1]
              rfl

theorem C4_status_amended_witness :
    (postArgument exStJ cbAllOk true "a1" (Except.ok exArRecon)).1.status =
      Status.judged := by
  have h := C4_status_amended.2.2.2 exStJ
    (postArgument exStJ cbAllOk true "a1" (Except.ok exArRecon)).1 cbAllOk true "a1"
    exArRecon (exArRecon, 4) rfl
  exact h.1 rfl

theorem postJudgment_error_state (st : CaseState) (cb : CacheBeh) (e : String) :
    (postJudgment st cb (Except.error e)).1 = st := by
  cases hc : cacheGet st cb <;> simp [postJudgment, hc]

theorem postArgument_error_state (st : CaseState) (cb : CacheBeh) (side : Bool)
    (text : String) (e : String) :
    (postArgument st cb side text (Except.error e)).1 = st := by
  by_cases h5 : 5 ≤ getArgumentCount st
  · simp [postArgument, h5]
  · cases hl : getLatestJudgment st <;> simp [postArgument, h5, hl]

theorem postFinalVerdict_error_state (st : CaseState) (cb : CacheBeh) (e : String) :
    (postFinalVerdict st cb (Except.error e)).1 = st := by
  by_cases hz : (getJudgments st).length = 0 <;> simp [postFinalVerdict, hz]

/-- A per-attempt oracle whose first judgment-generation attempt fails and
whose second succeeds. -/
def exOracleJ : Nat → Except String Judgment :=
  fun n => if n = 1 then Except.error "boom" else Except.ok exJudgment1

/-- A per-attempt oracle whose first argument-evaluation attempt fails and
whose second would succeed. -/
def exOracleA : Nat → Except String ArgResp :=
  fun n => if n = 1 then Except.error "boom" else Except.ok exArPlain

/-- Claim C5 counterexample: on an oracle that fails once and then succeeds,
the judgment and final-verdict loops recover on the retry, but
processArgument fails outright — argument evaluation is not retried — and its
error is the constant message, not one carrying the underlying error. -/
theorem C5_counterexample :
    processArgumentOnce exOracleA = Except.error "Failed to process argument" ∧
    retryGenerateJudgment exOracleJ = Except.ok exJudgment1 ∧
    retryFinalVerdict exOracleJ = Except.ok exJudgment1 :=
  ⟨rfl, rfl, rfl⟩

/-- Claim C5 (amended): initial-judgment and final-verdict generation are
retried up to 2 attempts total on any failure, and exhaustion surfaces a
failure message carrying the last underlying error; argument evaluation is
attempted exactly once and any failure surfaces the constant message without
the underlying error. On a generation failure none of the three routes
mutates the state. -/
theorem C5_retry_amended :
    (∀ (o : Nat → Except String Judgment) (j : Judgment),
      o 1 = Except.ok j →
      retryGenerateJudgment o = Except.ok j ∧ retryFinalVerdict o = Except.ok j) ∧
    (∀ (o : Nat → Except String Judgment) (e : String) (j : Judgment),
      o 1 = Except.error e → o 2 = Except.ok j →
      retryGenerateJudgment o = Except.ok j ∧ retryFinalVerdict o = Except.ok j) ∧
    (∀ (o : Nat → Except String Judgment) (e1 e2 : String),
      o 1 = Except.error e1 → o 2 = Except.error e2 →
      retryGenerateJudgment o =
        Except.error ("Failed to generate judgment after 2 attempts: " ++ e2) ∧
      retryFinalVerdict o =
        Except.error ("Failed to generate final verdict after 2 attempts: " ++ e2)) ∧
    (∀ (o : Nat → Except String ArgResp) (e : String),
      o 1 = Except.error e →
      processArgumentOnce o = Except.error "Failed to process argument") ∧
    (∀ st cb e, (postJudgment st cb (Except.error e)).1 = st) ∧
    (∀ st cb side text e, (postArgument st cb side text (Except.error e)).1 = st) ∧
    (∀ st cb e, (postFinalVerdict st cb (Except.error e)).1 = st) := by
  refine ⟨?_, ?_, ?_, ?_, postJudgment_error_state, postArgument_error_state,
    postFinalVerdict_error_state⟩
  · intro o j h
    exact ⟨by simp [retryGenerateJudgment, h], by simp [retryFinalVerdict, h]⟩
  · intro o e j h1 h2
    exact ⟨by simp [retryGenerateJudgment, h1, h2], by simp [retryFinalVerdict, h1, h2]⟩
  · intro o e1 e2 h1 h2
    exact ⟨by simp [retryGenerateJudgment, h1, h2], by simp [retryFinalVerdict, h1, h2]⟩
  · intro o e h
    simp [processArgumentOnce, h]

theorem C5_retry_amended_witness :
    retryGenerateJudgment exOracleJ = Except.ok exJudgment1 ∧
    processArgumentOnce exOracleA = Except.error "Failed to process argument" := by
  refine ⟨(C5_retry_amended.2.1 exOracleJ "boom" exJudgment1 rfl rfl).1, ?_⟩
  exact C5_retry_amended.2.2.2.1 exOracleA "boom" rfl

/-- An argument-evaluation backend response carrying every schema field,
including the strengthens, weakens and uncertaintyRemains indicators. -/
def c7input : JVal :=
  JVal.jobj [("response", JVal.jstr "r"), ("strengthens", JVal.jstr "Side A"),
    ("weakens", JVal.jstr "Side B"), ("uncertaintyRemains", JVal.jstr "u"),
    ("reconsidered", JVal.jbool false), ("confidence", JVal.jnum 80)]

/-- Claim C7: evaluation at the failing input. parseArgumentResponse drops
the strengthens, weakens and uncertaintyRemains fields the backend supplied
(they come back undefined), even though the schema validated them, the
ArgumentResponse interface declares them, and the route forwards them into
saveArgument; the remainingArguments arithmetic itself is as claimed
(5 minus the post-submission count). -/
theorem C7_code_eval :
    parseArgumentFromJson c7input =
      some ⟨"r", none, none, none, false, none, none, 80⟩ ∧
    (postArgument exStJ cbAllOk true "t" (Except.ok exArPlain)).2 =
      Except.ok (exArPlain, 4) := by
  refine ⟨by decide, rfl⟩

/-- Claim C8: the cache operations degrade to safe no-ops. Whenever the
client is disconnected or the backing call raises (the raise is caught), get
returns null and set and delete leave the backing store untouched, for every
key and value. -/
theorem C8_cache_safe (c : CacheSvc) (beh : CacheCall) (key value : String)
    (h : c.isConnected = false ∨ beh = CacheCall.fails) :
    svcGet c beh key = none ∧ svcSet c beh key value = c ∧ svcDelete c beh key = c := by
  rcases h with h | h
  · simp [svcGet, svcSet, svcDelete, h]
  · subst h
    by_cases hc : c.isConnected <;> simp [svcGet, svcSet, svcDelete, hc]

/-- A connected cache service with one stored entry. -/
def exCache : CacheSvc := ⟨true, [("k1", "v1")]⟩

theorem C8_cache_safe_witness :
    svcGet exCache CacheCall.fails "k1" = none ∧
    svcSet exCache CacheCall.fails "k1" "v2" = exCache ∧
    svcDelete exCache CacheCall.fails "k1" = exCache :=
  C8_cache_safe exCache CacheCall.fails "k1" "v2" (Or.inr rfl)

/-- A judgment is generated and cached, then a reconsidering argument is
submitted while the cache delete call fails (its error is caught and only
logged). -/
def ce9 : List Op :=
  [Op.genJudgment cbAllOk (Except.ok exJudgment1),
   Op.submitArg cbDelFail true "a1" (Except.ok exArRecon)]

/-- Claim C9 counterexample: after a reconsideration writes judgment version
2 (reasoning u2), a failed cache delete is swallowed, and a subsequent
successful cache get still returns the pre-reconsideration judgment
(reasoning r1) — not null and not a judgment at least as new as the one just
written. -/
theorem C9_counterexample :
    (run ce9).judgments.length = 2 ∧
    ((run ce9).judgments.map JudgmentRow.reasoning = ["r1", "u2"]) ∧
    cacheGet (run ce9) cbAllOk = some exJudgment1 ∧
    exJudgment1.reasoning = "r1" := by
  refine ⟨by decide, by decide, by decide, rfl⟩

/-- Claim C9 (amended): both judgment-changing writes invoke the cache delete
before returning success, so whenever that delete is not dropped by a cache
failure, the case cache key is empty on return and every subsequent get on it
returns null; only when the backing cache errors during the delete (the error
is swallowed by design) can a stale pre-reconsideration judgment still be
served. -/
theorem C9_invalidate_amended (st : CaseState) (cb : CacheBeh) (hdel : cb.delOk = true) :
    (∀ side text ar st2 r,
      postArgument st cb side text (Except.ok ar) = (st2, Except.ok r) →
      (ar.reconsidered && jsTruthyStr ar.updatedReasoning) = true →
      st2.cache = none ∧ ∀ cb2, cacheGet st2 cb2 = none) ∧
    (∀ fv st2 r, postFinalVerdict st cb (Except.ok fv) = (st2, Except.ok r) →
      st2.cache = none ∧ ∀ cb2, cacheGet st2 cb2 = none) := by
  constructor
  · intro side text ar st2 r h hrec
    by_cases h5 : 5 ≤ getArgumentCount st
    · simp [postArgument, h5] at h
    · cases hl : getLatestJudgment st with
      | none => simp [postArgument, h5, hl] at h
      | some latest =>
          simp only [postArgument, if_neg h5, hl, hrec, if_pos] at h
          obtain ⟨h1, h2⟩ := Prod.mk.injEq .. ▸ h
          have hcache : st2.cache = none := by
            rw [← h1]
            simp [cacheDel, hdel]
          exact ⟨hcache, fun cb2 => by simp [cacheGet, hcache]⟩
  · intro fv st2 r h
    by_cases hz : (getJudgments st).length = 0
    · simp [postFinalVerdict, hz] at h
    · simp only [postFinalVerdict, hz, if_false] at h
      obtain ⟨h1, h2⟩ := Prod.mk.injEq .. ▸ h
      have hcache : st2.cache = none := by
        rw [← h1]
        simp [cacheDel, hdel]
      exact ⟨hcache, fun cb2 => by simp [cacheGet, hcache]⟩

theorem C9_invalidate_amended_witness :
    (postArgument exStJ cbAllOk true "a1" (Except.ok exArRecon)).1.cache = none := by
  have h := (C9_invalidate_amended exStJ cbAllOk rfl).1 true "a1" exArRecon
    (postArgument exStJ cbAllOk true "a1" (Except.ok exArRecon)).1 (exArRecon, 4) rfl rfl
  exact h.1

/-- Claim C10: the falsy-default substitutions at the public parse interface:
an absent (or null) legalBasis becomes the empty list, an absent (or null)
confidence becomes 50 and so does a confidence of exactly 0 (the JavaScript
or-default treats 0 as falsy), and an absent reconsidered becomes false. -/
theorem C10_defaults (j k : JVal) (jd : Judgment) (ar : ArgResp)
    (hj : parseJudgmentFromJson j = some jd)
    (hk : parseArgumentFromJson k = some ar) :
    ((j.getField "legalBasis" = none ∨ j.getField "legalBasis" = some JVal.jnull) →
      jd.legalBasis = []) ∧
    ((j.getField "confidence" = none ∨ j.getField "confidence" = some (JVal.jnum 0)) →
      jd.confidence = 50) ∧
    (k.getField "reconsidered" = none → ar.reconsidered = false) ∧
    ((k.getField "confidence" = none ∨ k.getField "confidence" = some (JVal.jnum 0)) →
      ar.confidence = 50) := by
  rw [parseJudgmentFromJson] at hj
  rw [parseArgumentFromJson] at hk
  by_cases hv : validateJudgment j
  · by_cases hva : validateArgument k
    · rw [if_pos hv] at hj
      rw [if_pos hva] at hk
      cases hj
      cases hk
      refine ⟨?_, ?_, ?_, ?_⟩
      · rintro (h | h) <;> rw [h] <;> rfl
      · rintro (h | h) <;> rw [h] <;> simp [jsOrFifty]
      · intro h
        rw [h]
        rfl
      · rintro (h | h) <;> rw [h] <;> simp [jsOrFifty]
    · rw [if_neg hva] at hk
      cases hk
  · rw [if_neg hv] at hj
    cases hj

/-- A judgment response with verdict and reasoning only, plus a confidence of
exactly 0 and no legalBasis. -/
def c10judg : JVal :=
  JVal.jobj [("verdict", JVal.jstr "v"), ("reasoning", JVal.jstr "r"),
    ("confidence", JVal.jnum 0)]

/-- An argument response with only the required response field and a
confidence of exactly 0. -/
def c10arg : JVal :=
  JVal.jobj [("response", JVal.jstr "ok"), ("confidence", JVal.jnum 0)]

/-- The Judgment that parsing c10judg produces. -/
def c10jd : Judgment := ⟨"v", "r", [], 50⟩

/-- The ArgumentResponse that parsing c10arg produces. -/
def c10ar : ArgResp := ⟨"ok", none, none, none, false, none, none, 50⟩

theorem C10_defaults_witness :
    c10jd.legalBasis = [] ∧ c10jd.confidence = 50 ∧
    c10ar.reconsidered = false ∧ c10ar.confidence = 50 := by
  have h := C10_defaults c10judg c10arg c10jd c10ar (by decide) (by decide)
  exact ⟨h.1 (Or.inl rfl), h.2.1 (Or.inr rfl), h.2.2.1 rfl, h.2.2.2 (Or.inr rfl)⟩

theorem firstBrace_append (pre rest : List Char) (h : firstBrace pre = none) :
    firstBrace (pre ++ lbrace :: rest) = some pre.length := by
  induction pre with
  | nil => simp [firstBrace]
  | cons c cs ih =>
      have e0 : firstBrace (c :: cs) =
          (if c = lbrace then some 0 else (firstBrace cs).map (· + 1)) := rfl
      rw [e0] at h
      by_cases hc : c = lbrace
      · rw [if_pos hc] at h
        cases h
      · rw [if_neg hc] at h
        have hcs : firstBrace cs = none := by
          cases hfb : firstBrace cs with
          | none => rfl
          | some m =>
              rw [hfb] at h
              simp at h
        rw [List.cons_append]
        have e1 : firstBrace (c :: (cs ++ lbrace :: rest)) =
            (if c = lbrace then some 0
             else (firstBrace (cs ++ lbrace :: rest)).map (· + 1)) := rfl
        rw [e1, if_neg hc, ih hcs]
        simp

theorem lastClose_append_none (s post : List Char) (h : lastClose post = none) :
    lastClose (s ++ post) = lastClose s := by
  induction s with
  | nil => simpa using h
  | cons c cs ih =>
      rw [List.cons_append]
      have e1 : lastClose (c :: (cs ++ post)) =
          (match lastClose (cs ++ post) with
           | some j => some (j + 1)
           | none => if c = rbrace then some 0 else none) := rfl
      have e2 : lastClose (c :: cs) =
          (match lastClose cs with
           | some j => some (j + 1)
           | none => if c = rbrace then some 0 else none) := rfl
      rw [e1, e2, ih]

theorem lastClose_concat (zs : List Char) : lastClose (zs ++ [rbrace]) = some zs.length := by
  induction zs with
  | nil => simp [lastClose]
  | cons c cs ih =>
      rw [List.cons_append]
      have e1 : lastClose (c :: (cs ++ [rbrace])) =
          (match lastClose (cs ++ [rbrace]) with
           | some j => some (j + 1)
           | none => if c = rbrace then some 0 else none) := rfl
      rw [e1, ih]
      rfl

theorem extractJsonSpan_no_trailing (pre mid post : List Char)
    (hp : firstBrace pre = none) (hq : lastClose post = none) :
    extractJsonSpan (pre ++ (lbrace :: mid ++ [rbrace]) ++ post) =
      some (lbrace :: mid ++ [rbrace]) := by
  have h1 : firstBrace (pre ++ (lbrace :: mid ++ [rbrace]) ++ post) = some pre.length := by
    have := firstBrace_append pre (mid ++ [rbrace] ++ post) hp
    simpa [List.append_assoc] using this
  have h2 : lastClose (pre ++ (lbrace :: mid ++ [rbrace]) ++ post) =
      some (pre.length + mid.length + 1) := by
    rw [lastClose_append_none _ post hq]
    have heq : pre ++ (lbrace :: mid ++ [rbrace]) = (pre ++ lbrace :: mid) ++ [rbrace] := by
      simp
    rw [heq, lastClose_concat]
    have hl2 : (pre ++ lbrace :: mid).length = pre.length + mid.length + 1 := by
      simp only [List.length_append, List.length_cons]
      omega
    rw [hl2]
  have hlt : pre.length < pre.length + mid.length + 1 := by omega
  have e : extractJsonSpan (pre ++ (lbrace :: mid ++ [rbrace]) ++ post) =
      if pre.length < pre.length + mid.length + 1 then
        some (((pre ++ (lbrace :: mid ++ [rbrace]) ++ post).drop pre.length).take
          (pre.length + mid.length + 1 - pre.length + 1))
      else none := by
    unfold extractJsonSpan
    rw [h1, h2]
  rw [e, if_pos hlt]
  have harith : pre.length + mid.length + 1 - pre.length + 1 = mid.length + 2 := by omega
  rw [harith]
  have hdrop : (pre ++ (lbrace :: mid ++ [rbrace]) ++ post).drop pre.length =
      (lbrace :: mid ++ [rbrace]) ++ post := by
    rw [List.append_assoc]
    exact List.drop_left pre _
  rw [hdrop]
  have hlen : (lbrace :: mid ++ [rbrace]).length = mid.length + 2 := by simp
  rw [← hlen, List.take_left]

theorem lookupField_cons_ne (k : String) (v : JVal) (fs : List (String × JVal))
    (key : String) (h : ¬ k = key) :
    lookupField ((k, v) :: fs) key = lookupField fs key := by
  simp [lookupField, h]

/-- The property names the judgment schema inspects. -/
def judgmentKeys : List String := ["verdict", "reasoning", "legalBasis", "confidence"]

/-- The property names the argument schema inspects. -/
def argumentKeys : List String :=
  ["response", "strengthens", "weakens", "uncertaintyRemains", "reconsidered",
   "updatedReasoning", "provisionalNote", "confidence"]

theorem validateJudgment_extra (fs : List (String × JVal)) (k : String) (v : JVal)
    (h : k ∉ judgmentKeys) :
    validateJudgment (JVal.jobj ((k, v) :: fs)) = validateJudgment (JVal.jobj fs) := by
  simp only [judgmentKeys, List.mem_cons, List.mem_singleton, not_or] at h
  obtain ⟨h1, h2, h3, h4, h5⟩ := h
  simp only [validateJudgment, JVal.getField, isObj,
    lookupField_cons_ne k v fs _ h1, lookupField_cons_ne k v fs _ h2,
    lookupField_cons_ne k v fs _ h3, lookupField_cons_ne k v fs _ h4]

theorem validateArgument_extra (fs : List (String × JVal)) (k : String) (v : JVal)
    (h : k ∉ argumentKeys) :
    validateArgument (JVal.jobj ((k, v) :: fs)) = validateArgument (JVal.jobj fs) := by
  simp only [argumentKeys, List.mem_cons, List.mem_singleton, not_or] at h
  obtain ⟨h1, h2, h3, h4, h5, h6, h7, h8, h9⟩ := h
  simp only [validateArgument, JVal.getField, isObj,
    lookupField_cons_ne k v fs _ h1, lookupField_cons_ne k v fs _ h2,
    lookupField_cons_ne k v fs _ h3, lookupField_cons_ne k v fs _ h4,
    lookupField_cons_ne k v fs _ h5, lookupField_cons_ne k v fs _ h6,
    lookupField_cons_ne k v fs _ h7, lookupField_cons_ne k v fs _ h8]

/-- The JSON body of a well-formed judgment response. -/
def ce6inner : List Char := "\"verdict\":\"v\",\"reasoning\":\"r\"".toList

/-- A backend response whose valid JSON object is followed by prose that
contains one more closing brace. -/
def ce6resp : List Char :=
  "prose ".toList ++ [lbrace] ++ ce6inner ++ [rbrace] ++ " tail ".toList ++ [rbrace]

/-- The first top-level JSON span of ce6resp, which is valid JSON. -/
def ce6top : List Char := [lbrace] ++ ce6inner ++ [rbrace]

/-- What the greedy regex actually matches on ce6resp: through the last
closing brace, dragging along the trailing prose. -/
def ce6greedy : List Char := [lbrace] ++ ce6inner ++ [rbrace] ++ " tail ".toList ++ [rbrace]

/-- Claim C6 counterexample: on a response whose JSON object is followed by
prose containing a closing brace, the code's greedy extraction (first opening
brace through LAST closing brace) differs from the first top-level span the
claim describes: it captures the valid object plus trailing prose and a stray
brace, a string that is not a JSON object, so the parse fails where the
claimed extraction would succeed. -/
theorem C6_counterexample :
    extractJsonSpan ce6resp = some ce6greedy ∧
    firstTopLevelSpan ce6resp = some ce6top ∧
    ce6greedy ≠ ce6top := by
  refine ⟨by decide, by decide, by decide⟩

/-- Claim C6 (amended): extraction takes the span from the first opening
brace to the last closing brace of the whole response (greedy), which
coincides with the first top-level span exactly when no closing brace follows
the object; the extracted JSON is then validated against the per-kind schema
(judgment: verdict and reasoning required, legalBasis and confidence optional
with confidence bounded 0..100 when a number; argument: response required),
and any unrecognized extra field is ignored by both validators rather than
causing rejection. -/
theorem C6_parse_amended :
    (∀ pre mid post : List Char, firstBrace pre = none → lastClose post = none →
      extractJsonSpan (pre ++ (lbrace :: mid ++ [rbrace]) ++ post) =
        some (lbrace :: mid ++ [rbrace])) ∧
    (∀ (fs : List (String × JVal)) (k : String) (v : JVal), k ∉ judgmentKeys →
      validateJudgment (JVal.jobj ((k, v) :: fs)) = validateJudgment (JVal.jobj fs)) ∧
    (∀ (fs : List (String × JVal)) (k : String) (v : JVal), k ∉ argumentKeys →
      validateArgument (JVal.jobj ((k, v) :: fs)) = validateArgument (JVal.jobj fs)) ∧
    (∀ j, validateJudgment j = true →
      isReqString (j.getField "verdict") = true ∧
      isReqString (j.getField "reasoning") = true ∧
      isOptStrArray (j.getField "legalBasis") = true ∧
      isOptConfidence (j.getField "confidence") = true) ∧
    (∀ j, validateArgument j = true → isReqString (j.getField "response") = true) := by
  refine ⟨extractJsonSpan_no_trailing, validateJudgment_extra, validateArgument_extra, ?_, ?_⟩
  · intro j h
    simp only [validateJudgment, Bool.and_eq_true] at h
    exact ⟨h.1.1.1.2, h.1.1.2, h.1.2, h.2⟩
  · intro j h
    simp only [validateArgument, Bool.and_eq_true] at h
    exact h.1.1.1.1.1.1.1.2

/-- Judgment object fields used to witness the extra-field tolerance. -/
def c6fields : List (String × JVal) :=
  [("verdict", JVal.jstr "v"), ("reasoning", JVal.jstr "r")]

theorem C6_parse_amended_witness :
    extractJsonSpan ("x ".toList ++ (lbrace :: "ab".toList ++ [rbrace]) ++ " y".toList) =
      some (lbrace :: "ab".toList ++ [rbrace]) ∧
    validateJudgment (JVal.jobj (("extra", JVal.jnum 7) :: c6fields)) =
      validateJudgment (JVal.jobj c6fields) := by
  refine ⟨C6_parse_amended.1 _ _ _ (by decide) (by decide), ?_⟩
  exact C6_parse_amended.2.1 c6fields "extra" (JVal.jnum 7) (by decide)

end AiJudge
